import Mathlib

/-!
Verification of the AionUi permission-coordination layer.

The definitions below are a shallow embedding of the TypeScript sources:
`src/agent/codex/messaging/CodexMessageEmitter.ts` (the Codex `ApprovalStore`
and `serializeKey`), `src/agent/acp/ApprovalStore.ts` (the ACP serializer),
`src/renderer/messages/MessageList.tsx` (the `CodexAgentManager` methods
`confirm`, `applyPatchChanges`, `storeApprovalDecision`, `sendMessage`), and
`src/common/codex/utils` (`mapPermissionDecision`).

Runtime TypeScript values are stringly typed, so review decisions and UI
option ids are modelled as `String`.  `JSON.stringify` of the canonical key
object is injective on the shapes the code builds (fixed field order, fixed
set of fields), so a serialized cache key is modelled as the canonical
structure `SerializedKey` that the source stringifies; equality of the
structures is equivalent to equality of the produced JSON strings.
-/

namespace AionUi

/-- Command input of an exec approval key: the source declares
`command : string | string[]`. -/
inductive CommandInput where
  | str (s : String)
  | arr (l : List String)
deriving DecidableEq, Repr

/-- Array normalization performed by `serializeKey`:
`Array.isArray(key.command) ? key.command : [key.command]`. -/
def CommandInput.toArray : CommandInput → List String
  | .str s => [s]
  | .arr l => l

/-- The `ApprovalKey` union of `CodexMessageEmitter.ts`: an exec key
(command plus optional working directory) or a patch key (list of files). -/
inductive ApprovalKey where
  | exec (command : CommandInput) (cwd : Option String)
  | patch (files : List String)
deriving DecidableEq, Repr

/-- `createExecApprovalKey` from `CodexMessageEmitter.ts`. -/
def createExecApprovalKey (command : CommandInput) (cwd : Option String) : ApprovalKey :=
  ApprovalKey.exec command cwd

/-- `createPatchApprovalKey` from `CodexMessageEmitter.ts`. -/
def createPatchApprovalKey (files : List String) : ApprovalKey :=
  ApprovalKey.patch files

/-- Canonical structure whose JSON rendering `serializeKey` returns.
Two keys produce the same JSON string iff they produce the same
`SerializedKey` value (the rendering is injective on this shape). -/
inductive SerializedKey where
  | exec (command : List String) (cwd : String)
  | patch (files : List String)
deriving DecidableEq, Repr

/-- Strict lexicographic comparison of character sequences by code unit,
the comparison JavaScript's default `Array.prototype.sort` applies to
strings. -/
def listLtB : List Char → List Char → Bool
  | [], [] => false
  | [], _ :: _ => true
  | _ :: _, [] => false
  | a :: as, b :: bs =>
    if a.toNat < b.toNat then true
    else if b.toNat < a.toNat then false
    else listLtB as bs

/-- Non-strict string comparison derived from `listLtB`. -/
def strLeB (a b : String) : Bool := !(listLtB b.data a.data)

/-- Insert a string into an already sorted list, keeping it sorted. -/
def insertSorted (a : String) : List String → List String
  | [] => [a]
  | b :: l => if strLeB a b then a :: b :: l else b :: insertSorted a l

/-- The sort used for `[...key.files].sort()`: JavaScript's default sort
orders strings lexicographically by code unit (modelled as a stable
insertion sort with `strLeB`). -/
def sortFiles (files : List String) : List String :=
  files.foldr insertSorted []

/-- `serializeKey` of `CodexMessageEmitter.ts`: exec keys keep the command
array (a lone string becomes a one-element array) and default the working
directory to the empty string (`key.cwd || ''`); patch keys sort the file
list for consistent hashing. -/
def serializeKey : ApprovalKey → SerializedKey
  | .exec command cwd => SerializedKey.exec command.toArray (cwd.getD "")
  | .patch files => SerializedKey.patch (sortFiles files)

/-- The private `Map<string, ReviewDecision>` of the `ApprovalStore` class,
modelled as a function from serialized keys to optional decisions. -/
def Store : Type := SerializedKey → Option String

/-- A freshly constructed (empty) approval store. -/
def Store.empty : Store := fun _ => none

namespace ApprovalStore

/-- `ApprovalStore.get`: look up the serialized key in the map. -/
def get (m : Store) (key : ApprovalKey) : Option String :=
  m (serializeKey key)

/-- `ApprovalStore.put`: only `approved_for_session` and `abort` are
written; any other decision leaves the map untouched. -/
def put (m : Store) (key : ApprovalKey) (decision : String) : Store :=
  if decision = "approved_for_session" ∨ decision = "abort" then
    fun s => if s = serializeKey key then some decision else m s
  else m

/-- `ApprovalStore.isRejectedForSession`: cached decision is `abort`. -/
def isRejectedForSession (m : Store) (key : ApprovalKey) : Bool :=
  decide (get m key = some "abort")

/-- `ApprovalStore.allApprovedForSession`: false on the empty list,
otherwise every key must map to `approved_for_session`. -/
def allApprovedForSession (m : Store) (keys : List ApprovalKey) : Bool :=
  if keys.length = 0 then false
  else keys.all fun key => decide (get m key = some "approved_for_session")

/-- `ApprovalStore.putAll`: apply `put` to every key (guarded by the same
cacheability test as `put`). -/
def putAll (m : Store) (keys : List ApprovalKey) (decision : String) : Store :=
  if decision = "approved_for_session" ∨ decision = "abort" then
    keys.foldl (fun acc key => put acc key decision) m
  else m

/-- `ApprovalStore.clear`: remove all entries. -/
def clear (_ : Store) : Store := fun _ => none

end ApprovalStore

/-! ### ACP approval-key serialization (`src/agent/acp/ApprovalStore.ts`) -/

/-- The loosely typed `rawInput` bag of an ACP approval key: the fields the
serializer inspects (`command`, `path`, `file_path`), the `description`
field it deliberately drops, and the open tail of further fields
(`extra`), which the serializer also drops. -/
structure AcpRawInput where
  command : Option String
  path : Option String
  file_path : Option String
  description : Option String
  extra : List (String × String)
deriving DecidableEq, Repr

/-- `AcpApprovalKey` from `src/agent/acp/ApprovalStore.ts`. -/
structure AcpApprovalKey where
  kind : String
  title : String
  rawInput : Option AcpRawInput
deriving DecidableEq, Repr

/-- Canonical structure whose JSON rendering the ACP `serializeKey`
returns; a field is `none` when the source key omitted it or held a falsy
value, mirroring `if (key.rawInput.command) ...`. -/
structure AcpSerializedKey where
  kind : String
  title : String
  command : Option String
  path : Option String
  file_path : Option String
deriving DecidableEq, Repr

/-- JavaScript truthiness on an optional string field: present and
non-empty. -/
def truthyField : Option String → Option String
  | none => none
  | some s => if s.isEmpty then none else some s

/-- `serializeKey` from `src/agent/acp/ApprovalStore.ts`: keeps `kind`
(defaulted to `unknown`), `title` (defaulted to the empty string) and only
the operation-identifying `command`/`path`/`file_path` fields of
`rawInput`; `description` and all other fields are dropped. -/
def acpSerializeKey (key : AcpApprovalKey) : AcpSerializedKey :=
  { kind := if key.kind.isEmpty then "unknown" else key.kind
    title := if key.title.isEmpty then "" else key.title
    command := truthyField (key.rawInput.bind (·.command))
    path := truthyField (key.rawInput.bind (·.path))
    file_path := truthyField (key.rawInput.bind (·.file_path)) }

/-! ### Permission decision mapping -/

/-- Modelled from the spec: the constant `PERMISSION_DECISION_MAP` lives in
`src/common/codex/types/permissionTypes.ts`, which is not under `src/`;
the spec fixes its table as `allow_once → approved`,
`allow_always → approved_for_session`, `reject_once → denied`,
`reject_always → abort`. -/
def PERMISSION_DECISION_MAP : String → Option String := fun optionId =>
  if optionId = "allow_once" then some "approved"
  else if optionId = "allow_always" then some "approved_for_session"
  else if optionId = "reject_once" then some "denied"
  else if optionId = "reject_always" then some "abort"
  else none

/-- `mapPermissionDecision` from `src/common/codex/utils`:
`PERMISSION_DECISION_MAP[optionId] || 'denied'`. -/
def mapPermissionDecision (optionId : String) : String :=
  (PERMISSION_DECISION_MAP optionId).getD "denied"

/-- The decision computed at the top of `CodexAgentManager.confirm`:
`data in PERMISSION_DECISION_MAP ? data : 'reject_once'` fed to
`mapPermissionDecision`. -/
def confirmDecision (data : String) : String :=
  mapPermissionDecision (if (PERMISSION_DECISION_MAP data).isSome then data else "reject_once")

/-! ### Call-id normalization (`CodexAgentManager.confirm`) -/

/-- JavaScript `String.prototype.startsWith`, modelled on the character
sequence. -/
def jsStartsWith (s p : String) : Bool :=
  p.data.isPrefixOf s.data

/-- JavaScript `String.prototype.substring(n)`: drop the first `n`
characters. -/
def jsSubstringFrom (n : Nat) (s : String) : String :=
  String.mk (s.data.drop n)

/-- The call-id normalization in `CodexAgentManager.confirm`: strip the
first matching prefix among `permission_`, `patch_`, `elicitation_`,
`exec_`, else return the id unchanged. -/
def normalizeCallId (callId : String) : String :=
  if jsStartsWith callId "permission_" then jsSubstringFrom 11 callId
  else if jsStartsWith callId "patch_" then jsSubstringFrom 6 callId
  else if jsStartsWith callId "elicitation_" then jsSubstringFrom 12 callId
  else if jsStartsWith callId "exec_" then jsSubstringFrom 5 callId
  else callId

/-- The four structural call-id prefixes the engine recognizes. -/
def recognizedCallIdTags : List String :=
  ["permission_", "patch_", "elicitation_", "exec_"]

/-! ### The confirm state machine (`CodexAgentManager.confirm`) -/

/-- The observable effects `confirm` triggers, in program order:
`super.confirm`, `removePendingConfirmation`, the `patch_applied` /
`patch_failed` session events, `respondElicitation` (the protocol-level
acknowledgement to the transport), the `resolvePermission` call, and the
actual resumption of the paused operation when the gate was still
pending. -/
inductive Event where
  | superConfirm (callId data : String)
  | removePending (callId : String)
  | patchApplied (callId : String) (files : List String)
  | patchFailed (callId error : String)
  | respondElicitation (callId decision : String)
  | resolveCall (callId : String) (approved : Bool)
  | resumed (callId : String)
deriving DecidableEq, Repr

/-- True exactly on the protocol acknowledgement event. -/
def isAck : Event → Bool
  | .respondElicitation _ _ => true
  | _ => false

/-- True exactly on the local gate-release call event. -/
def isGateRelease : Event → Bool
  | .resolveCall _ _ => true
  | _ => false

/-- True exactly on the resumption event of a paused operation. -/
def isResumedEv : Event → Bool
  | .resumed _ => true
  | _ => false

/-- True on the patch application events (success or failure). -/
def isPatchApplyEv : Event → Bool
  | .patchApplied _ _ => true
  | .patchFailed _ _ => true
  | _ => false

/-- The session-scoped mutable state `confirm` touches: the approval
store, the pending-confirmation markers, the per-call exec metadata and
patch payloads held by the tool handlers, and the local execution gates
(`true` while the call id is still paused). -/
structure AgentState where
  store : Store
  pendingConf : String → Bool
  execMeta : String → Option (CommandInput × Option String)
  patchChanges : String → Option (List String)
  gates : String → Bool

/-- Remove the entry of one call id from a string-keyed map. -/
def eraseKey {α : Type} (m : String → Option α) (callId : String) : String → Option α :=
  fun x => if x = callId then none else m x

/-- Modelled from the spec: `CodexAgent.resolvePermission` is not under
`src/`; per §5(b) of the spec the paused operation is resumed exactly
once, on the first terminal decision for that call id, so resolving an
already-resolved gate is a no-op. -/
def resolvePermission (gates : String → Bool) (origCallId : String) (approved : Bool) :
    (String → Bool) × List Event :=
  if gates origCallId then
    (fun x => if x = origCallId then false else gates x,
      [Event.resolveCall origCallId approved, Event.resumed origCallId])
  else (gates, [Event.resolveCall origCallId approved])

/-- `CodexAgentManager.storeApprovalDecision`: an exec request stores its
command and cwd, otherwise a patch request stores its file list; the
wrappers `CodexAgent.storeExecApproval` / `storePatchApproval` are not
under `src/` and are modelled from the spec (§4.3 step 4) as `put` of the
request's exec or patch key. -/
def storeApprovalDecision (store : Store) (execM : Option (CommandInput × Option String))
    (patchC : Option (List String)) (decision : String) : Store :=
  match execM with
  | some (command, cwd) => ApprovalStore.put store (createExecApprovalKey command cwd) decision
  | none =>
    match patchC with
    | some files => ApprovalStore.put store (createPatchApprovalKey files) decision
    | none => store

/-- Result of one `confirm` run: the state afterwards, the trace of
effects, and the re-raised error when `applyPatchChanges` threw. -/
structure ConfirmResult where
  state : AgentState
  events : List Event
  err : Option String

/-- Shared tail of every non-throwing `confirm` branch: normalize the call
id, send the protocol acknowledgement (`respondElicitation`), then release
the local gate (`resolvePermission`).  The pending record carrying exec
metadata and patch payload is modelled from the spec (§3) as destroyed at
resolution (the tool handlers are not under `src/`). -/
def finishConfirm (st : AgentState) (store1 : Store) (callId decision : String)
    (isApproved : Bool) (evs : List Event) : ConfirmResult :=
  let origCallId := normalizeCallId callId
  let gr := resolvePermission st.gates origCallId isApproved
  { state :=
      { store := store1
        pendingConf := st.pendingConf
        execMeta := eraseKey st.execMeta callId
        patchChanges := eraseKey st.patchChanges callId
        gates := gr.1 }
    events := evs ++ Event.respondElicitation origCallId decision :: gr.2
    err := none }

/-- Shallow embedding of `CodexAgentManager.confirm` (and of
`applyPatchChanges`, inlined at its only call site).  `applyError` is the
outcome of the external `applyBatchChanges` collaborator: `none` for
success, `some e` when applying the file changes throws `e`, in which case
a `patch_failed` event is emitted and the error re-raised, skipping the
acknowledgement and the gate release. -/
def confirm (st0 : AgentState) (applyError : Option String) (callId data : String) :
    ConfirmResult :=
  let st := { st0 with pendingConf := fun x => if x = callId then false else st0.pendingConf x }
  let execM := st.execMeta callId
  let patchC := st.patchChanges callId
  let decision := confirmDecision data
  let isApproved := decision == "approved" || decision == "approved_for_session"
  let store1 :=
    if decision == "approved_for_session" || decision == "abort" then
      storeApprovalDecision st.store execM patchC decision
    else st.store
  let evs := [Event.superConfirm callId data, Event.removePending callId]
  match patchC, isApproved with
  | some files, true =>
    match applyError with
    | none =>
      finishConfirm st store1 callId decision isApproved
        (evs ++ [Event.patchApplied callId files])
    | some e =>
      { state := { st with store := store1 }
        events := evs ++ [Event.patchFailed callId e]
        err := some e }
  | some _, false => finishConfirm st store1 callId decision isApproved evs
  | none, _ => finishConfirm st store1 callId decision isApproved evs

/-- The store after the cache-update step of `confirm` (the value of its
`store1` binding): the decision is written through
`storeApprovalDecision` only when it is `approved_for_session` or
`abort`. -/
def confirmStore1 (st0 : AgentState) (callId data : String) : Store :=
  if confirmDecision data == "approved_for_session" || confirmDecision data == "abort" then
    storeApprovalDecision st0.store (st0.execMeta callId) (st0.patchChanges callId)
      (confirmDecision data)
  else st0.store

/-- The state of the agent after the `removePendingConfirmation` call at
the top of `confirm`. -/
def removePendingState (st0 : AgentState) (callId : String) : AgentState :=
  { st0 with pendingConf := fun x => if x = callId then false else st0.pendingConf x }

/-- Concrete session state used for witnesses: everything pending, no
exec metadata, no patch payloads. -/
def stC3 : AgentState :=
  { store := Store.empty
    pendingConf := fun _ => true
    execMeta := fun _ => none
    patchChanges := fun _ => none
    gates := fun _ => true }

/-- Concrete session state used for the C10 witness: a pending patch
request for `patch_1` touching `a.txt`. -/
def stC10 : AgentState :=
  { store := Store.empty
    pendingConf := fun _ => true
    execMeta := fun _ => none
    patchChanges := fun c => if c = "patch_1" then some ["a.txt"] else none
    gates := fun _ => true }

/-! ### First-message routing (`CodexAgentManager.sendMessage`) -/

/-- Initial value of the `isFirstMessage` field of `CodexAgentManager`. -/
def initialIsFirstMessage : Bool := true

/-- Modelled from the spec: `prepareFirstMessageWithSkillsIndex` of
`@process/task/agentUtils` is not under `src/`; per §4.4 the first
message is preceded by injection of preset/skill context. -/
def prepareFirstMessageWithSkillsIndex (presetContext : Option String) (content : String) :
    String :=
  match presetContext with
  | some preset => preset ++ content
  | none => content

/-- How one outbound message is routed: the session-creation call or the
regular prompt call. -/
inductive SendRoute where
  | newSession (content : String)
  | sendPrompt (content : String)
deriving DecidableEq, Repr

/-- The routing decision of `CodexAgentManager.sendMessage`: the first
message flips the latch and goes through `newSession` with the injected
context, every later message goes through `sendPrompt`. -/
def sendMessage (isFirstMessage : Bool) (presetContext : Option String) (content : String) :
    Bool × SendRoute :=
  if isFirstMessage then
    (false, SendRoute.newSession (prepareFirstMessageWithSkillsIndex presetContext content))
  else
    (isFirstMessage, SendRoute.sendPrompt content)

/-- Send a sequence of messages through `sendMessage`, threading the
latch. -/
def sendSequence (isFirstMessage : Bool) (presetContext : Option String) :
    List String → Bool × List SendRoute
  | [] => (isFirstMessage, [])
  | content :: rest =>
    let step := sendMessage isFirstMessage presetContext content
    let next := sendSequence step.1 presetContext rest
    (next.1, step.2 :: next.2)

/-- A Codex exec permission request as raised by the agent: the
operation-identifying fields (command, cwd) together with the cosmetic
ones (title, free-text description) that the canonical key drops. -/
structure CodexExecRequest where
  command : CommandInput
  cwd : Option String
  title : String
  description : String
deriving DecidableEq, Repr

/-- The canonical exec key built for a request: `storeApprovalDecision`
passes only the command and cwd to `createExecApprovalKey`. -/
def execKeyOfRequest (r : CodexExecRequest) : ApprovalKey :=
  createExecApprovalKey r.command r.cwd

/-! ### Order lemmas for the string comparison used by the file sort -/

theorem listLtB_asymm : ∀ (x y : List Char), listLtB x y = true → listLtB y x = false
  | [], [] => by simp [listLtB]
  | [], _ :: _ => by simp [listLtB]
  | _ :: _, [] => by simp [listLtB]
  | a :: as, b :: bs => by
    simp only [listLtB]
    by_cases h1 : a.toNat < b.toNat
    · have h2 : ¬ b.toNat < a.toNat := Nat.lt_asymm h1
      simp [h1, h2]
    · by_cases h2 : b.toNat < a.toNat
      · simp [h1, h2]
      · simp only [h1, h2, if_false, if_neg]
        exact listLtB_asymm as bs

theorem listLtB_connex : ∀ (x y : List Char),
    listLtB x y = false → listLtB y x = false → x = y
  | [], [] => by simp
  | [], _ :: _ => by simp [listLtB]
  | _ :: _, [] => by simp [listLtB]
  | a :: as, b :: bs => by
    simp only [listLtB]
    by_cases h1 : a.toNat < b.toNat
    · simp [h1]
    · by_cases h2 : b.toNat < a.toNat
      · simp [h1, h2]
      · simp only [h1, h2, if_false, if_neg]
        intro hab hba
        have hn : a.toNat = b.toNat :=
          Nat.le_antisymm (Nat.not_lt.mp h2) (Nat.not_lt.mp h1)
        have hc : a = b := Char.eq_of_val_eq (UInt32.ext hn)
        rw [hc, listLtB_connex as bs hab hba]

theorem listLtB_trans : ∀ (x y z : List Char),
    listLtB x y = true → listLtB y z = true → listLtB x z = true
  | x, y, [] => by
    intro _ h2
    cases y <;> simp [listLtB] at h2
  | [], y, _ :: _ => by intros; simp [listLtB]
  | a :: as, y, c :: cs => by
    cases y with
    | nil => intro h1 _; simp [listLtB] at h1
    | cons b bs =>
      intro h1 h2
      simp only [listLtB] at h1 h2 ⊢
      by_cases hab : a.toNat < b.toNat
      · by_cases hbc : b.toNat < c.toNat
        · simp [Nat.lt_trans hab hbc]
        · by_cases hcb : c.toNat < b.toNat
          · rw [if_neg hbc, if_pos hcb] at h2
            exact absurd h2 (by simp)
          · have hn : b.toNat = c.toNat :=
              Nat.le_antisymm (Nat.not_lt.mp hcb) (Nat.not_lt.mp hbc)
            have hac : a.toNat < c.toNat := hn ▸ hab
            simp [hac]
      · rw [if_neg hab] at h1
        by_cases hba : b.toNat < a.toNat
        · rw [if_pos hba] at h1
          exact absurd h1 (by simp)
        · rw [if_neg hba] at h1
          have hn1 : a.toNat = b.toNat :=
            Nat.le_antisymm (Nat.not_lt.mp hba) (Nat.not_lt.mp hab)
          by_cases hbc : b.toNat < c.toNat
          · have hac : a.toNat < c.toNat := by omega
            simp [hac]
          · by_cases hcb : c.toNat < b.toNat
            · rw [if_neg hbc, if_pos hcb] at h2
              exact absurd h2 (by simp)
            · rw [if_neg hbc, if_neg hcb] at h2
              have hn2 : b.toNat = c.toNat :=
                Nat.le_antisymm (Nat.not_lt.mp hcb) (Nat.not_lt.mp hbc)
              have hac1 : ¬ a.toNat < c.toNat := by omega
              have hac2 : ¬ c.toNat < a.toNat := by omega
              rw [if_neg hac1, if_neg hac2]
              exact listLtB_trans as bs cs h1 h2

theorem strLeB_total (a b : String) (h : strLeB a b = false) : strLeB b a = true := by
  unfold strLeB at h ⊢
  simp only [Bool.not_eq_false'] at h
  simp only [Bool.not_eq_true']
  exact listLtB_asymm _ _ h

theorem strLeB_antisymm (a b : String) (h1 : strLeB a b = true) (h2 : strLeB b a = true) :
    a = b := by
  unfold strLeB at h1 h2
  simp only [Bool.not_eq_true'] at h1 h2
  exact String.ext (listLtB_connex _ _ h2 h1)

theorem strLeB_trans (a b c : String) (h1 : strLeB a b = true) (h2 : strLeB b c = true) :
    strLeB a c = true := by
  unfold strLeB at h1 h2 ⊢
  simp only [Bool.not_eq_true'] at h1 h2 ⊢
  rcases Bool.eq_false_or_eq_true (listLtB b.data c.data) with hbc | hbc
  · rcases Bool.eq_false_or_eq_true (listLtB c.data a.data) with hca | hca
    · have := listLtB_trans _ _ _ hbc hca
      rw [this] at h1
      exact absurd h1 (by simp)
    · exact hca
  · have hd : c.data = b.data := listLtB_connex _ _ h2 hbc
    rw [hd, h1]

theorem insertSorted_comm (a b : String) : ∀ (l : List String),
    insertSorted a (insertSorted b l) = insertSorted b (insertSorted a l)
  | [] => by
    simp only [insertSorted]
    by_cases h1 : strLeB a b
    · by_cases h2 : strLeB b a
      · rw [strLeB_antisymm a b h1 h2]
      · simp [insertSorted, h1, h2]
    · have h2 : strLeB b a = true := strLeB_total a b (by simpa using h1)
      simp [insertSorted, h1, h2]
  | c :: l => by
    by_cases hac : strLeB a c <;> by_cases hbc : strLeB b c
    · by_cases h1 : strLeB a b
      · by_cases h2 : strLeB b a
        · rw [strLeB_antisymm a b h1 h2]
        · simp [insertSorted, hac, hbc, h1, h2]
      · have h2 : strLeB b a = true := strLeB_total a b (by simpa using h1)
        simp [insertSorted, hac, hbc, h1, h2]
    · have hba : ¬ strLeB b a = true := fun hba => by
        rw [strLeB_trans b a c hba hac] at hbc
        exact hbc rfl
      simp [insertSorted, hac, hbc, hba]
    · have hab : ¬ strLeB a b = true := fun hab => by
        rw [strLeB_trans a b c hab hbc] at hac
        exact hac rfl
      simp [insertSorted, hac, hbc, hab]
    · simp [insertSorted, hac, hbc, insertSorted_comm a b l]

theorem sortFiles_congr_of_perm {l1 l2 : List String} (h : l1.Perm l2) :
    sortFiles l1 = sortFiles l2 :=
  List.Perm.foldr_eq' h (fun x _ y _ z => insertSorted_comm y x z) []

/-! ### Claim theorems -/

/-- C1: for every key `k`, `put(k, d)` with `d` among
`approved_for_session` and `abort` makes `get(k)` return `d`, no matter
how many times the same `put(k, d)` is repeated; `put(k, approved)` and
`put(k, denied)` never change the store, so `get(k)` stays at its previous
value (absent if never cached). -/
theorem c1_put_caches_only_session_decisions (m : Store) (k : ApprovalKey) (d : String) :
    ((d = "approved_for_session" ∨ d = "abort") →
      ∀ n : Nat,
        ApprovalStore.get ((fun s => ApprovalStore.put s k d)^[n + 1] m) k = some d) ∧
    ApprovalStore.put m k "approved" = m ∧
    ApprovalStore.put m k "denied" = m := by
  refine ⟨fun hd n => ?_, ?_, ?_⟩
  · rw [Function.iterate_succ_apply']
    unfold ApprovalStore.get ApprovalStore.put
    rw [if_pos hd]
    simp
  · unfold ApprovalStore.put
    rw [if_neg (by decide)]
  · unfold ApprovalStore.put
    rw [if_neg (by decide)]

theorem c1_put_caches_only_session_decisions_witness :
    ApprovalStore.get
      ((fun s => ApprovalStore.put s (createPatchApprovalKey ["a.txt"]) "abort")^[3]
        Store.empty)
      (createPatchApprovalKey ["a.txt"]) = some "abort" ∧
    ApprovalStore.put Store.empty (createPatchApprovalKey ["a.txt"]) "approved" = Store.empty ∧
    ApprovalStore.put Store.empty (createPatchApprovalKey ["a.txt"]) "denied" = Store.empty :=
  have h := c1_put_caches_only_session_decisions Store.empty
    (createPatchApprovalKey ["a.txt"]) "abort"
  ⟨h.1 (Or.inr rfl) 2, h.2.1, h.2.2⟩

/-- C6: `allApprovedForSession(keys)` is true iff `keys` is non-empty and
every key in `keys` maps to `approved_for_session`; on the empty list it
always returns false. -/
theorem c6_allApprovedForSession_spec (m : Store) (keys : List ApprovalKey) :
    ApprovalStore.allApprovedForSession m [] = false ∧
    (ApprovalStore.allApprovedForSession m keys = true ↔
      keys ≠ [] ∧ ∀ k ∈ keys, ApprovalStore.get m k = some "approved_for_session") := by
  refine ⟨rfl, ?_⟩
  unfold ApprovalStore.allApprovedForSession
  rcases keys with _ | ⟨k, ks⟩
  · simp
  · simp [List.all_eq_true]

theorem c6_allApprovedForSession_spec_witness :
    ApprovalStore.allApprovedForSession Store.empty [] = false ∧
    (ApprovalStore.allApprovedForSession Store.empty [createPatchApprovalKey ["a.txt"]] = true ↔
      [createPatchApprovalKey ["a.txt"]] ≠ [] ∧
        ∀ k ∈ [createPatchApprovalKey ["a.txt"]],
          ApprovalStore.get Store.empty k = some "approved_for_session") :=
  c6_allApprovedForSession_spec Store.empty [createPatchApprovalKey ["a.txt"]]

/-- C4: the canonical exec signature ignores title and free-text
description fields: any two exec permission requests with identical
command and working directory serialize to the same cache key — hence hit
the same `ApprovalStore` entry — whatever their titles or descriptions;
likewise the ACP serializer keeps only `kind`, `title` and the
operation-identifying `command`/`path`/`file_path` fields, so ACP keys
differing only in description or other raw-input fields serialize
identically. -/
theorem c4_exec_key_ignores_title_and_description (r1 r2 : CodexExecRequest) (m : Store)
    (hcmd : r1.command = r2.command) (hcwd : r1.cwd = r2.cwd) :
    serializeKey (execKeyOfRequest r1) = serializeKey (execKeyOfRequest r2) ∧
    ApprovalStore.get m (execKeyOfRequest r1) = ApprovalStore.get m (execKeyOfRequest r2) ∧
    ∀ (k1 k2 : AcpApprovalKey), k1.kind = k2.kind → k1.title = k2.title →
      k1.rawInput.bind (·.command) = k2.rawInput.bind (·.command) →
      k1.rawInput.bind (·.path) = k2.rawInput.bind (·.path) →
      k1.rawInput.bind (·.file_path) = k2.rawInput.bind (·.file_path) →
      acpSerializeKey k1 = acpSerializeKey k2 := by
  have hkey : serializeKey (execKeyOfRequest r1) = serializeKey (execKeyOfRequest r2) := by
    unfold execKeyOfRequest createExecApprovalKey serializeKey
    rw [hcmd, hcwd]
  refine ⟨hkey, ?_, ?_⟩
  · unfold ApprovalStore.get
    rw [hkey]
  · intro k1 k2 hk ht hc hp hf
    unfold acpSerializeKey
    rw [hk, ht, hc, hp, hf]

theorem c4_exec_key_ignores_title_and_description_witness :
    serializeKey (execKeyOfRequest
        ⟨CommandInput.arr ["rm", "-rf", "tmp"], some "/work", "Delete temp", "removes tmp"⟩) =
      serializeKey (execKeyOfRequest
        ⟨CommandInput.arr ["rm", "-rf", "tmp"], some "/work", "Clean up", "cleans workspace"⟩) ∧
    ApprovalStore.get Store.empty (execKeyOfRequest
        ⟨CommandInput.arr ["rm", "-rf", "tmp"], some "/work", "Delete temp", "removes tmp"⟩) =
      ApprovalStore.get Store.empty (execKeyOfRequest
        ⟨CommandInput.arr ["rm", "-rf", "tmp"], some "/work", "Clean up", "cleans workspace"⟩) ∧
    acpSerializeKey ⟨"execute", "Shell",
        some ⟨some "ls -la", none, none, some "list files", []⟩⟩ =
      acpSerializeKey ⟨"execute", "Shell",
        some ⟨some "ls -la", none, none, some "show directory", [("ts", "1")]⟩⟩ :=
  have h := c4_exec_key_ignores_title_and_description
    ⟨CommandInput.arr ["rm", "-rf", "tmp"], some "/work", "Delete temp", "removes tmp"⟩
    ⟨CommandInput.arr ["rm", "-rf", "tmp"], some "/work", "Clean up", "cleans workspace"⟩
    Store.empty rfl rfl
  ⟨h.1, h.2.1,
    h.2.2 ⟨"execute", "Shell", some ⟨some "ls -la", none, none, some "list files", []⟩⟩
      ⟨"execute", "Shell", some ⟨some "ls -la", none, none, some "show directory", [("ts", "1")]⟩⟩
      rfl rfl rfl rfl rfl⟩

/-- C5: patch key equality is order-independent: the patch keys of any two
file lists that are permutations of each other serialize to the same
string, so an `abort` (reject-always) decision cached for one file list is
found by `isRejectedForSession` for any reordering of it. -/
theorem c5_patch_key_order_independent (l1 l2 : List String) (m : Store)
    (h : l1.Perm l2) :
    serializeKey (createPatchApprovalKey l1) = serializeKey (createPatchApprovalKey l2) ∧
    ApprovalStore.isRejectedForSession
      (ApprovalStore.put m (createPatchApprovalKey l1) "abort")
      (createPatchApprovalKey l2) = true := by
  have hkey : serializeKey (createPatchApprovalKey l1) =
      serializeKey (createPatchApprovalKey l2) := by
    show SerializedKey.patch (sortFiles l1) = SerializedKey.patch (sortFiles l2)
    rw [sortFiles_congr_of_perm h]
  refine ⟨hkey, ?_⟩
  unfold ApprovalStore.isRejectedForSession ApprovalStore.get ApprovalStore.put
  rw [if_pos (Or.inr rfl), ← hkey]
  simp

/-- C7: the UI option id is mapped to the canonical decision by the fixed
table `allow_once → approved`, `allow_always → approved_for_session`,
`reject_once → denied`, `reject_always → abort`, and every unknown or
missing option id resolves to `denied` (fail closed), both through
`mapPermissionDecision` directly and through the defaulting at the top of
`confirm`. -/
theorem c7_decision_mapping_fail_closed :
    mapPermissionDecision "allow_once" = "approved" ∧
    mapPermissionDecision "allow_always" = "approved_for_session" ∧
    mapPermissionDecision "reject_once" = "denied" ∧
    mapPermissionDecision "reject_always" = "abort" ∧
    ∀ s : String, s ∉ ["allow_once", "allow_always", "reject_once", "reject_always"] →
      mapPermissionDecision s = "denied" ∧ confirmDecision s = "denied" := by
  refine ⟨rfl, rfl, rfl, rfl, fun s hs => ?_⟩
  simp only [List.mem_cons, List.not_mem_nil, or_false, not_or] at hs
  obtain ⟨h1, h2, h3, h4⟩ := hs
  have hmap : PERMISSION_DECISION_MAP s = none := by
    unfold PERMISSION_DECISION_MAP
    rw [if_neg h1, if_neg h2, if_neg h3, if_neg h4]
  constructor
  · unfold mapPermissionDecision
    rw [hmap]
    rfl
  · unfold confirmDecision
    rw [hmap]
    rfl

theorem c7_decision_mapping_fail_closed_witness :
    mapPermissionDecision "allow_once" = "approved" ∧
    mapPermissionDecision "allow_always" = "approved_for_session" ∧
    mapPermissionDecision "reject_once" = "denied" ∧
    mapPermissionDecision "reject_always" = "abort" ∧
    mapPermissionDecision "allow" = "denied" ∧
    confirmDecision "" = "denied" :=
  have h := c7_decision_mapping_fail_closed
  have h5 := h.2.2.2.2 "allow" (by decide)
  have h6 := h.2.2.2.2 "" (by decide)
  ⟨h.1, h.2.1, h.2.2.1, h.2.2.2.1, h5.1, h6.2⟩

theorem recognizedTagCases (p : String) (hp : p ∈ recognizedCallIdTags) :
    p = "permission_" ∨ p = "patch_" ∨ p = "elicitation_" ∨ p = "exec_" := by
  simpa [recognizedCallIdTags] using hp

theorem isPrefixOfCharsIff {l1 l2 : List Char} : l1.isPrefixOf l2 = true ↔ l1 <+: l2 :=
  List.isPrefixOf_iff_prefix

theorem recognizedTagUnique {s p q : String} (hp : p ∈ recognizedCallIdTags)
    (hq : q ∈ recognizedCallIdTags) (hps : p.data <+: s.data) (hqs : q.data <+: s.data) :
    p = q := by
  rcases recognizedTagCases p hp with rfl | rfl | rfl | rfl <;>
    rcases recognizedTagCases q hq with rfl | rfl | rfl | rfl <;>
      first
        | rfl
        | exact absurd
            (isPrefixOfCharsIff.mpr (List.prefix_of_prefix_length_le hps hqs (by decide)))
            (by decide)
        | exact absurd
            (isPrefixOfCharsIff.mpr (List.prefix_of_prefix_length_le hqs hps (by decide)))
            (by decide)

theorem append_drop_eq {s p : String} (n : Nat) (hlen : p.data.length = n)
    (hps : p.data <+: s.data) : p.data ++ s.data.drop n = s.data := by
  obtain ⟨t, ht⟩ := hps
  rw [← ht, ← hlen, List.drop_left]

/-- C8: call-id normalization strips exactly one recognized tag —
`permission_`, `patch_`, `elicitation_` or `exec_` — from the front of
the call id when one is present (the remainder being exactly the original
id minus that tag), returns the id unmodified otherwise, and at most one
tag can match a given id. -/
theorem c8_normalize_call_id (s : String) :
    (∀ p ∈ recognizedCallIdTags, p.data <+: s.data →
      p.data ++ (normalizeCallId s).data = s.data) ∧
    ((∀ p ∈ recognizedCallIdTags, ¬ p.data <+: s.data) → normalizeCallId s = s) ∧
    (∀ p ∈ recognizedCallIdTags, ∀ q ∈ recognizedCallIdTags,
      p.data <+: s.data → q.data <+: s.data → p = q) := by
  refine ⟨fun p hp hps => ?_, fun hnone => ?_, fun p hp q hq hps hqs =>
    recognizedTagUnique hp hq hps hqs⟩
  · have hmem : p ∈ recognizedCallIdTags := hp
    have hsw : jsStartsWith s p = true := isPrefixOfCharsIff.mpr hps
    rcases recognizedTagCases p hp with rfl | rfl | rfl | rfl
    · unfold normalizeCallId
      rw [if_pos hsw]
      exact append_drop_eq 11 (by decide) hps
    · have h1 : jsStartsWith s "permission_" = false := by
        rcases Bool.eq_false_or_eq_true (jsStartsWith s "permission_") with h | h
        · have := recognizedTagUnique (s := s) (by decide : "permission_" ∈ recognizedCallIdTags)
            hp (isPrefixOfCharsIff.mp h) hps
          exact absurd this (by decide)
        · exact h
      unfold normalizeCallId
      rw [if_neg (by simp [h1]), if_pos hsw]
      exact append_drop_eq 6 (by decide) hps
    · have h1 : jsStartsWith s "permission_" = false := by
        rcases Bool.eq_false_or_eq_true (jsStartsWith s "permission_") with h | h
        · have := recognizedTagUnique (s := s) (by decide : "permission_" ∈ recognizedCallIdTags)
            hp (isPrefixOfCharsIff.mp h) hps
          exact absurd this (by decide)
        · exact h
      have h2 : jsStartsWith s "patch_" = false := by
        rcases Bool.eq_false_or_eq_true (jsStartsWith s "patch_") with h | h
        · have := recognizedTagUnique (s := s) (by decide : "patch_" ∈ recognizedCallIdTags)
            hp (isPrefixOfCharsIff.mp h) hps
          exact absurd this (by decide)
        · exact h
      unfold normalizeCallId
      rw [if_neg (by simp [h1]), if_neg (by simp [h2]), if_pos hsw]
      exact append_drop_eq 12 (by decide) hps
    · have h1 : jsStartsWith s "permission_" = false := by
        rcases Bool.eq_false_or_eq_true (jsStartsWith s "permission_") with h | h
        · have := recognizedTagUnique (s := s) (by decide : "permission_" ∈ recognizedCallIdTags)
            hp (isPrefixOfCharsIff.mp h) hps
          exact absurd this (by decide)
        · exact h
      have h2 : jsStartsWith s "patch_" = false := by
        rcases Bool.eq_false_or_eq_true (jsStartsWith s "patch_") with h | h
        · have := recognizedTagUnique (s := s) (by decide : "patch_" ∈ recognizedCallIdTags)
            hp (isPrefixOfCharsIff.mp h) hps
          exact absurd this (by decide)
        · exact h
      have h3 : jsStartsWith s "elicitation_" = false := by
        rcases Bool.eq_false_or_eq_true (jsStartsWith s "elicitation_") with h | h
        · have := recognizedTagUnique (s := s) (by decide : "elicitation_" ∈ recognizedCallIdTags)
            hp (isPrefixOfCharsIff.mp h) hps
          exact absurd this (by decide)
        · exact h
      unfold normalizeCallId
      rw [if_neg (by simp [h1]), if_neg (by simp [h2]), if_neg (by simp [h3]), if_pos hsw]
      exact append_drop_eq 5 (by decide) hps
  · have h1 : jsStartsWith s "permission_" = false := by
      rcases Bool.eq_false_or_eq_true (jsStartsWith s "permission_") with h | h
      · exact absurd (isPrefixOfCharsIff.mp h) (hnone _ (by decide))
      · exact h
    have h2 : jsStartsWith s "patch_" = false := by
      rcases Bool.eq_false_or_eq_true (jsStartsWith s "patch_") with h | h
      · exact absurd (isPrefixOfCharsIff.mp h) (hnone _ (by decide))
      · exact h
    have h3 : jsStartsWith s "elicitation_" = false := by
      rcases Bool.eq_false_or_eq_true (jsStartsWith s "elicitation_") with h | h
      · exact absurd (isPrefixOfCharsIff.mp h) (hnone _ (by decide))
      · exact h
    have h4 : jsStartsWith s "exec_" = false := by
      rcases Bool.eq_false_or_eq_true (jsStartsWith s "exec_") with h | h
      · exact absurd (isPrefixOfCharsIff.mp h) (hnone _ (by decide))
      · exact h
    unfold normalizeCallId
    rw [if_neg (by simp [h1]), if_neg (by simp [h2]), if_neg (by simp [h3]),
      if_neg (by simp [h4])]

theorem c8_normalize_call_id_witness :
    "patch_".data ++ (normalizeCallId "patch_call42").data = "patch_call42".data ∧
    normalizeCallId "call42" = "call42" :=
  have h1 := c8_normalize_call_id "patch_call42"
  have h2 := c8_normalize_call_id "call42"
  ⟨h1.1 "patch_" (by decide) (by decide),
    h2.2.1 (by decide)⟩

/-- Helper: once the latch is false every message is routed through the
regular prompt call and the latch stays false. -/
theorem sendSequence_after_first (pc : Option String) : ∀ (msgs : List String),
    sendSequence false pc msgs = (false, msgs.map SendRoute.sendPrompt)
  | [] => rfl
  | m :: rest => by
    simp [sendSequence, sendMessage, sendSequence_after_first pc rest]

/-- C9: within one session only the first user message is routed through
the session-creation call (with preset/skill context injected first), and
every subsequent message uses the regular prompt call; the first-message
latch starts `true`, flips to `false` at the first send, and never flips
back afterwards. -/
theorem c9_first_message_latch (pc : Option String) (m : String) (msgs : List String) :
    initialIsFirstMessage = true ∧
    sendSequence initialIsFirstMessage pc (m :: msgs) =
      (false, SendRoute.newSession (prepareFirstMessageWithSkillsIndex pc m) ::
        msgs.map SendRoute.sendPrompt) ∧
    sendSequence false pc msgs = (false, msgs.map SendRoute.sendPrompt) := by
  refine ⟨rfl, ?_, sendSequence_after_first pc msgs⟩
  simp [sendSequence, sendMessage, initialIsFirstMessage, sendSequence_after_first pc msgs]

theorem c9_first_message_latch_witness :
    sendSequence initialIsFirstMessage (some "preset ") ["hello", "again"] =
      (false, [SendRoute.newSession "preset hello", SendRoute.sendPrompt "again"]) := by
  have h := c9_first_message_latch (some "preset ") "hello" ["again"]
  simpa [prepareFirstMessageWithSkillsIndex] using h.2.1

theorem c5_patch_key_order_independent_witness :
    serializeKey (createPatchApprovalKey ["a.txt", "b.txt"]) =
      serializeKey (createPatchApprovalKey ["b.txt", "a.txt"]) ∧
    ApprovalStore.isRejectedForSession
      (ApprovalStore.put Store.empty (createPatchApprovalKey ["a.txt", "b.txt"]) "abort")
      (createPatchApprovalKey ["b.txt", "a.txt"]) = true :=
  c5_patch_key_order_independent ["a.txt", "b.txt"] ["b.txt", "a.txt"] Store.empty
    (by decide)

/-! ### Structure lemmas for `confirm` -/

theorem finishConfirm_shape (st : AgentState) (store1 : Store) (callId decision : String)
    (isApproved : Bool) (evs : List Event) :
    (finishConfirm st store1 callId decision isApproved evs).err = none ∧
    ∃ tail,
      (finishConfirm st store1 callId decision isApproved evs).events =
        evs ++ Event.respondElicitation (normalizeCallId callId) decision ::
          Event.resolveCall (normalizeCallId callId) isApproved :: tail ∧
      (tail = [] ∨ tail = [Event.resumed (normalizeCallId callId)]) := by
  constructor
  · rfl
  · by_cases hg : st.gates (normalizeCallId callId) = true
    · have hgr : resolvePermission st.gates (normalizeCallId callId) isApproved =
          (fun x => if x = normalizeCallId callId then false else st.gates x,
            [Event.resolveCall (normalizeCallId callId) isApproved,
              Event.resumed (normalizeCallId callId)]) := by
        unfold resolvePermission
        rw [if_pos hg]
      refine ⟨[Event.resumed (normalizeCallId callId)], ?_, Or.inr rfl⟩
      simp only [finishConfirm]
      rw [hgr]
    · have hgr : resolvePermission st.gates (normalizeCallId callId) isApproved =
          (st.gates, [Event.resolveCall (normalizeCallId callId) isApproved]) := by
        unfold resolvePermission
        rw [if_neg hg]
      refine ⟨[], ?_, Or.inl rfl⟩
      simp only [finishConfirm]
      rw [hgr]

/-- Case analysis on the body of `confirm`: every run either ends in
`finishConfirm` with one of the three event prefixes, or throws in the
patch-apply branch. -/
theorem confirm_cases (st0 : AgentState) (applyError : Option String) (callId data : String) :
    (∃ evs,
      confirm st0 applyError callId data =
        finishConfirm (removePendingState st0 callId) (confirmStore1 st0 callId data) callId
          (confirmDecision data)
          (confirmDecision data == "approved" || confirmDecision data == "approved_for_session")
          evs ∧
      (∀ e ∈ evs, isAck e = false ∧ isGateRelease e = false ∧ isResumedEv e = false)) ∨
    (∃ files e,
      applyError = some e ∧
      st0.patchChanges callId = some files ∧
      (confirmDecision data == "approved" || confirmDecision data == "approved_for_session")
        = true ∧
      confirm st0 applyError callId data =
        { state := { removePendingState st0 callId with store := confirmStore1 st0 callId data }
          events := [Event.superConfirm callId data, Event.removePending callId,
            Event.patchFailed callId e]
          err := some e }) := by
  rcases hpc : st0.patchChanges callId with _ | files
  · refine Or.inl ⟨[Event.superConfirm callId data, Event.removePending callId], ?_, ?_⟩
    · simp only [confirm, confirmStore1, removePendingState, hpc]
    · intro e he
      simp only [List.mem_cons, List.not_mem_nil, or_false] at he
      rcases he with rfl | rfl
      · exact ⟨rfl, rfl, rfl⟩
      · exact ⟨rfl, rfl, rfl⟩
  · rcases happr : (confirmDecision data == "approved" ||
        confirmDecision data == "approved_for_session") with _ | _
    · refine Or.inl ⟨[Event.superConfirm callId data, Event.removePending callId], ?_, ?_⟩
      · simp only [confirm, confirmStore1, removePendingState, hpc, happr]
      · intro e he
        simp only [List.mem_cons, List.not_mem_nil, or_false] at he
        rcases he with rfl | rfl
        · exact ⟨rfl, rfl, rfl⟩
        · exact ⟨rfl, rfl, rfl⟩
    · rcases applyError with _ | e
      · refine Or.inl ⟨[Event.superConfirm callId data, Event.removePending callId,
          Event.patchApplied callId files], ?_, ?_⟩
        · simp only [confirm, confirmStore1, removePendingState, hpc, happr,
            List.cons_append, List.nil_append]
        · intro e he
          simp only [List.mem_cons, List.not_mem_nil, or_false] at he
          rcases he with rfl | rfl | rfl
          · exact ⟨rfl, rfl, rfl⟩
          · exact ⟨rfl, rfl, rfl⟩
          · exact ⟨rfl, rfl, rfl⟩
      · refine Or.inr ⟨files, e, rfl, rfl, rfl, ?_⟩
        simp only [confirm, confirmStore1, removePendingState, hpc, happr,
          List.cons_append, List.nil_append]

/-- C2 (amended): for every terminal decision whose processing completes
without a patch-apply exception — including denials — the protocol-level
acknowledgement (`respondElicitation`) is sent and then, never skipped,
the local gate release (`resolvePermission`) follows for the normalized
call id; when applying the dependent file changes throws, the error is
re-raised and neither the acknowledgement nor the gate release happens. -/
theorem c2_ack_then_release_unless_apply_throws (st : AgentState)
    (applyError : Option String) (callId data : String) :
    ((confirm st applyError callId data).err = none →
      ∃ pre,
        ((confirm st applyError callId data).events =
            pre ++ [Event.respondElicitation (normalizeCallId callId) (confirmDecision data),
              Event.resolveCall (normalizeCallId callId)
                (confirmDecision data == "approved" ||
                  confirmDecision data == "approved_for_session")] ∨
          (confirm st applyError callId data).events =
            pre ++ [Event.respondElicitation (normalizeCallId callId) (confirmDecision data),
              Event.resolveCall (normalizeCallId callId)
                (confirmDecision data == "approved" ||
                  confirmDecision data == "approved_for_session"),
              Event.resumed (normalizeCallId callId)]) ∧
        ∀ e ∈ pre, isAck e = false ∧ isGateRelease e = false) ∧
    ((confirm st applyError callId data).err ≠ none →
      ∀ e ∈ (confirm st applyError callId data).events,
        isAck e = false ∧ isGateRelease e = false) := by
  rcases confirm_cases st applyError callId data with
    ⟨evs, heq, hevs⟩ | ⟨files, e, hae, hpc, happr, heq⟩
  · obtain ⟨herr, tail, hevents, htail⟩ := finishConfirm_shape
      (removePendingState st callId) (confirmStore1 st callId data) callId
      (confirmDecision data)
      (confirmDecision data == "approved" || confirmDecision data == "approved_for_session")
      evs
    constructor
    · intro _
      refine ⟨evs, ?_, fun e he => ⟨(hevs e he).1, (hevs e he).2.1⟩⟩
      rcases htail with rfl | rfl
      · left
        rw [heq, hevents]
      · right
        rw [heq, hevents]
    · intro hne
      rw [heq, herr] at hne
      exact absurd rfl hne
  · constructor
    · intro hnone
      rw [heq] at hnone
      cases hnone
    · intro _
      rw [heq]
      intro ev hev
      simp only [List.mem_cons, List.not_mem_nil, or_false] at hev
      rcases hev with rfl | rfl | rfl
      · exact ⟨rfl, rfl⟩
      · exact ⟨rfl, rfl⟩
      · exact ⟨rfl, rfl⟩

theorem c2_ack_then_release_unless_apply_throws_witness :
    ∃ pre,
      ((confirm
          ⟨Store.empty, fun _ => true, fun _ => none, fun _ => none, fun _ => true⟩
          none "exec_c1" "reject_once").events =
          pre ++ [Event.respondElicitation (normalizeCallId "exec_c1")
              (confirmDecision "reject_once"),
            Event.resolveCall (normalizeCallId "exec_c1")
              (confirmDecision "reject_once" == "approved" ||
                confirmDecision "reject_once" == "approved_for_session")] ∨
        (confirm
          ⟨Store.empty, fun _ => true, fun _ => none, fun _ => none, fun _ => true⟩
          none "exec_c1" "reject_once").events =
          pre ++ [Event.respondElicitation (normalizeCallId "exec_c1")
              (confirmDecision "reject_once"),
            Event.resolveCall (normalizeCallId "exec_c1")
              (confirmDecision "reject_once" == "approved" ||
                confirmDecision "reject_once" == "approved_for_session"),
            Event.resumed (normalizeCallId "exec_c1")]) ∧
      ∀ e ∈ pre, isAck e = false ∧ isGateRelease e = false :=
  (c2_ack_then_release_unless_apply_throws
    ⟨Store.empty, fun _ => true, fun _ => none, fun _ => none, fun _ => true⟩
    none "exec_c1" "reject_once").1 rfl

/-- Concrete state used to refute claim C2 as stated: a pending patch
request whose file changes will fail to apply. -/
def stC2 : AgentState :=
  { store := Store.empty
    pendingConf := fun _ => true
    execMeta := fun _ => none
    patchChanges := fun c => if c = "patch_c1" then some ["a.txt"] else none
    gates := fun _ => true }

/-- C2 (counterexample): for the terminal decision `allow_once` on a patch
request whose dependent file changes fail to apply, `confirm` re-raises
the error and its trace contains neither the protocol acknowledgement nor
the gate release — refuting, at this input, the claim that both are
performed for every terminal decision including decisions whose dependent
file changes fail to apply. -/
theorem c2_counterexample_apply_failure_skips_ack_and_release :
    (confirm stC2 (some "EACCES") "patch_c1" "allow_once").err = some "EACCES" ∧
    ¬ ((∃ e ∈ (confirm stC2 (some "EACCES") "patch_c1" "allow_once").events,
          isAck e = true) ∧
        ∃ e ∈ (confirm stC2 (some "EACCES") "patch_c1" "allow_once").events,
          isGateRelease e = true) := by
  constructor
  · rfl
  · intro h
    obtain ⟨⟨e1, he1, hack⟩, _⟩ := h
    have hev : (confirm stC2 (some "EACCES") "patch_c1" "allow_once").events =
        [Event.superConfirm "patch_c1" "allow_once", Event.removePending "patch_c1",
          Event.patchFailed "patch_c1" "EACCES"] := by decide
    rw [hev] at he1
    simp only [List.mem_cons, List.not_mem_nil, or_false] at he1
    rcases he1 with rfl | rfl | rfl <;> cases hack

theorem ApprovalStore.get_put_same (m : Store) (k : ApprovalKey) (d : String)
    (hd : d = "approved_for_session" ∨ d = "abort") :
    ApprovalStore.get (ApprovalStore.put m k d) k = some d := by
  unfold ApprovalStore.get ApprovalStore.put
  rw [if_pos hd]
  simp

/-- C10: when applying an approved patch's file changes fails, a
`patch_failed` session event carrying the error is emitted and the error
is re-raised to the caller, while the `approved_for_session` decision
already cached for the patch key stays in the `ApprovalStore` untouched —
so a retried identical patch request auto-approves again. -/
theorem c10_patch_failure_keeps_cached_approval (st : AgentState) (callId err : String)
    (files : List String)
    (hexec : st.execMeta callId = none)
    (hpatch : st.patchChanges callId = some files) :
    (confirm st (some err) callId "allow_always").err = some err ∧
    Event.patchFailed callId err ∈ (confirm st (some err) callId "allow_always").events ∧
    ApprovalStore.get (confirm st (some err) callId "allow_always").state.store
      (createPatchApprovalKey files) = some "approved_for_session" ∧
    ApprovalStore.allApprovedForSession
      (confirm st (some err) callId "allow_always").state.store
      [createPatchApprovalKey files] = true := by
  have hdec : confirmDecision "allow_always" = "approved_for_session" := by decide
  have hstore : confirmStore1 st callId "allow_always" =
      ApprovalStore.put st.store (createPatchApprovalKey files) "approved_for_session" := by
    unfold confirmStore1
    rw [if_pos (by decide :
      ((confirmDecision "allow_always" == "approved_for_session" ||
        confirmDecision "allow_always" == "abort") = true))]
    unfold storeApprovalDecision
    rw [hexec, hpatch, hdec]
  have happr : (confirmDecision "allow_always" == "approved" ||
      confirmDecision "allow_always" == "approved_for_session") = true := by decide
  have hc : confirm st (some err) callId "allow_always" =
      { state :=
          { removePendingState st callId with store := confirmStore1 st callId "allow_always" }
        events := [Event.superConfirm callId "allow_always", Event.removePending callId,
          Event.patchFailed callId err]
        err := some err } := by
    simp only [confirm, confirmStore1, removePendingState, hpatch, happr,
      List.cons_append, List.nil_append]
  rw [hc]
  have hget : ApprovalStore.get (confirmStore1 st callId "allow_always")
      (createPatchApprovalKey files) = some "approved_for_session" := by
    rw [hstore]
    exact ApprovalStore.get_put_same st.store (createPatchApprovalKey files)
      "approved_for_session" (Or.inl rfl)
  refine ⟨rfl, by simp, hget, ?_⟩
  simp [ApprovalStore.allApprovedForSession, hget]

theorem c10_patch_failure_keeps_cached_approval_witness :
    (confirm stC10 (some "EPERM") "patch_1" "allow_always").err = some "EPERM" ∧
    Event.patchFailed "patch_1" "EPERM" ∈
      (confirm stC10 (some "EPERM") "patch_1" "allow_always").events ∧
    ApprovalStore.get (confirm stC10 (some "EPERM") "patch_1" "allow_always").state.store
      (createPatchApprovalKey ["a.txt"]) = some "approved_for_session" ∧
    ApprovalStore.allApprovedForSession
      (confirm stC10 (some "EPERM") "patch_1" "allow_always").state.store
      [createPatchApprovalKey ["a.txt"]] = true :=
  c10_patch_failure_keeps_cached_approval stC10 "patch_1" "EPERM" ["a.txt"] rfl (by decide)

/-- Helper for C3: a confirm run on a state whose records for the call id
are gone and whose gate is already resolved leaves the store and the
gates untouched, resumes nothing and applies no patch. -/
theorem confirm_second_run (st1 : AgentState) (ae2 : Option String) (callId d2 : String)
    (hexec : st1.execMeta callId = none)
    (hpc : st1.patchChanges callId = none)
    (hgate : st1.gates (normalizeCallId callId) = false) :
    (confirm st1 ae2 callId d2).state.store = st1.store ∧
    (confirm st1 ae2 callId d2).state.gates = st1.gates ∧
    (confirm st1 ae2 callId d2).events.filter isResumedEv = [] ∧
    ∀ e ∈ (confirm st1 ae2 callId d2).events, isPatchApplyEv e = false := by
  have hc : confirm st1 ae2 callId d2 =
      finishConfirm (removePendingState st1 callId) (confirmStore1 st1 callId d2) callId
        (confirmDecision d2)
        (confirmDecision d2 == "approved" || confirmDecision d2 == "approved_for_session")
        [Event.superConfirm callId d2, Event.removePending callId] := by
    simp only [confirm, confirmStore1, removePendingState, hpc]
  have hstore : confirmStore1 st1 callId d2 = st1.store := by
    unfold confirmStore1 storeApprovalDecision
    rw [hexec, hpc]
    split <;> rfl
  have hgate' : (removePendingState st1 callId).gates (normalizeCallId callId) = false := hgate
  have hgr : resolvePermission (removePendingState st1 callId).gates (normalizeCallId callId)
      (confirmDecision d2 == "approved" || confirmDecision d2 == "approved_for_session") =
      ((removePendingState st1 callId).gates,
        [Event.resolveCall (normalizeCallId callId)
          (confirmDecision d2 == "approved" || confirmDecision d2 == "approved_for_session")]) := by
    unfold resolvePermission
    rw [if_neg (by simp [hgate'])]
  rw [hc]
  simp only [finishConfirm]
  rw [hgr]
  refine ⟨hstore, rfl, rfl, ?_⟩
  intro e he
  simp only [List.cons_append, List.nil_append, List.mem_cons, List.not_mem_nil, or_false] at he
  rcases he with rfl | rfl | rfl | rfl
  · rfl
  · rfl
  · rfl
  · rfl

/-- Helper for C3: a completed (non-throwing) confirm run on a state whose
gate for the call id is pending resumes the paused operation exactly once
and destroys the records of the call id (gate resolved, exec metadata and
patch payload gone). -/
theorem confirm_first_run (st : AgentState) (ae1 : Option String) (callId d1 : String)
    (hgate : st.gates (normalizeCallId callId) = true)
    (herr : (confirm st ae1 callId d1).err = none) :
    (confirm st ae1 callId d1).events.filter isResumedEv =
      [Event.resumed (normalizeCallId callId)] ∧
    (confirm st ae1 callId d1).state.execMeta callId = none ∧
    (confirm st ae1 callId d1).state.patchChanges callId = none ∧
    (confirm st ae1 callId d1).state.gates (normalizeCallId callId) = false := by
  rcases confirm_cases st ae1 callId d1 with ⟨evs, heq, hevs⟩ | ⟨files, e, hae, hpc, happr, heq⟩
  · have hgate' : (removePendingState st callId).gates (normalizeCallId callId) = true := hgate
    have hgr : resolvePermission (removePendingState st callId).gates (normalizeCallId callId)
        (confirmDecision d1 == "approved" || confirmDecision d1 == "approved_for_session") =
        (fun x => if x = normalizeCallId callId then false
            else (removePendingState st callId).gates x,
          [Event.resolveCall (normalizeCallId callId)
            (confirmDecision d1 == "approved" || confirmDecision d1 == "approved_for_session"),
            Event.resumed (normalizeCallId callId)]) := by
      unfold resolvePermission
      rw [if_pos hgate']
    rw [heq]
    simp only [finishConfirm]
    rw [hgr]
    refine ⟨?_, ?_, ?_, ?_⟩
    · rw [List.filter_append]
      have h1 : evs.filter isResumedEv = [] :=
        List.filter_eq_nil_iff.mpr (fun a ha => by simp [(hevs a ha).2.2])
      rw [h1]
      rfl
    · simp [eraseKey]
    · simp [eraseKey]
    · simp
  · rw [heq] at herr
    cases herr

/-- C3: for every call id, resolving it a second time after a first
completed terminal resolution has no additional effect: the paused
operation is resumed exactly once (by the first resolution, never by the
second), and the second confirm call leaves the approval store and the
gates unchanged, applies no patch and resumes nothing. -/
theorem c3_second_resolution_is_noop (st : AgentState) (ae1 ae2 : Option String)
    (callId d1 d2 : String)
    (hgate : st.gates (normalizeCallId callId) = true)
    (herr : (confirm st ae1 callId d1).err = none) :
    (confirm st ae1 callId d1).events.filter isResumedEv =
      [Event.resumed (normalizeCallId callId)] ∧
    (confirm (confirm st ae1 callId d1).state ae2 callId d2).events.filter isResumedEv = [] ∧
    (confirm (confirm st ae1 callId d1).state ae2 callId d2).state.store =
      (confirm st ae1 callId d1).state.store ∧
    (confirm (confirm st ae1 callId d1).state ae2 callId d2).state.gates =
      (confirm st ae1 callId d1).state.gates ∧
    ∀ e ∈ (confirm (confirm st ae1 callId d1).state ae2 callId d2).events,
      isPatchApplyEv e = false := by
  obtain ⟨hf1, hexec1, hpc1, hgate1⟩ := confirm_first_run st ae1 callId d1 hgate herr
  obtain ⟨hs2, hg2, hf2, hp2⟩ :=
    confirm_second_run (confirm st ae1 callId d1).state ae2 callId d2 hexec1 hpc1 hgate1
  exact ⟨hf1, hf2, hs2, hg2, hp2⟩

theorem c3_second_resolution_is_noop_witness :
    (confirm stC3 none "exec_q" "allow_once").events.filter isResumedEv =
      [Event.resumed (normalizeCallId "exec_q")] ∧
    (confirm (confirm stC3 none "exec_q" "allow_once").state none "exec_q"
      "allow_once").events.filter isResumedEv = [] ∧
    (confirm (confirm stC3 none "exec_q" "allow_once").state none "exec_q"
      "allow_once").state.store = (confirm stC3 none "exec_q" "allow_once").state.store ∧
    (confirm (confirm stC3 none "exec_q" "allow_once").state none "exec_q"
      "allow_once").state.gates = (confirm stC3 none "exec_q" "allow_once").state.gates ∧
    ∀ e ∈ (confirm (confirm stC3 none "exec_q" "allow_once").state none "exec_q"
      "allow_once").events, isPatchApplyEv e = false :=
  c3_second_resolution_is_noop stC3 none none "exec_q" "allow_once" "allow_once" rfl rfl

end AionUi
